import Mathlib

/-!
Shallow embedding of the `capital_call` Anchor program
(`programs/capital-call/src/lib.rs`) and proofs about its instruction
semantics.

Modelling conventions:

* `u64`/`u128` machine integers are `Nat` with explicit reduction modulo
  `2 ^ 64` / `2 ^ 128` wherever the Rust code performs unchecked
  (release-mode, wrapping) arithmetic: the `end_time` addition, the
  `allocated += amount` / `redeemed += amount` accumulators, and the
  `u128` product inside `CapitalCall::to_lp_token`.  Division by zero is a
  Rust panic in every build mode and aborts the transaction; it is modelled
  as the distinguished `PanicDivisionByZero` outcome.
* Pubkey fields, PDA seeds and bump fields are addressing concerns and are
  omitted; depositors are identified by a `Nat` id and the single capital
  call of a run is implicit.  Anchor's account validation runs before each
  handler body and is part of the instruction's semantics: `#[account(init)]`
  on `Deposit.voucher` fails when the voucher account already exists
  (`AccountAlreadyInitialized`); `close = authority` on `Refund.voucher` and
  `Claim.voucher` destroys the voucher on success; `close = receiver` on
  `CloseCapitalCall.capital_call` destroys the capital-call record, modelled
  by the `closed` flag, after which every instruction fails
  (`AccountNotInitialized`).
* SPL-token CPIs (`transfer`, `mint_to`, `burn`, `close_account`) are
  recorded as a list of `LedgerOp` effects.  An instruction returning
  `Except.error` commits nothing: Solana rolls the whole transaction back,
  so the caller keeps the previous state.
-/

namespace CapCall

def U64_MAX : Nat := 2 ^ 64 - 1

def U64_MOD : Nat := 2 ^ 64

def U128_MOD : Nat := 2 ^ 128

/-- Error outcomes: the program's `CapitalCallError` codes, the two Anchor
account-validation failures the model needs, and the arithmetic panic. -/
inductive CapitalCallError where
  | BumpSeedNotInHashMap
  | StartTimeMustBeInFuture
  | DurationNonZero
  | CapacityNonZero
  | CapitalCallNotStarted
  | CapitalCallEnded
  | CapitalCallAlreadyFullyFunded
  | AmountNonZero
  | CapitalCallNotEnded
  | CapitalCallIsFullyFunded
  | InvalidLpMintAuthority
  | LpTokenSupplyNonZero
  | CalculationError
  | LpTokenNotMinted
  | CapitalCallHasToBeFullyRefunded
  | LpTokensHasToBeFullyDistributed
  | AccountAlreadyInitialized
  | AccountNotInitialized
  | PanicDivisionByZero
  deriving DecidableEq

instance {ε α : Type} [DecidableEq ε] [DecidableEq α] : DecidableEq (Except ε α) := fun x y =>
  match x, y with
  | .ok a, .ok b =>
    if h : a = b then isTrue (by rw [h]) else isFalse (fun hh => h (Except.ok.inj hh))
  | .error e, .error f =>
    if h : e = f then isTrue (by rw [h]) else isFalse (fun hh => h (Except.error.inj hh))
  | .ok _, .error _ => isFalse (fun hh => Except.noConfusion hh)
  | .error _, .ok _ => isFalse (fun hh => Except.noConfusion hh)

/-- The `CapitalCall` account (`#[account] pub struct CapitalCall`); the
Pubkey references (`config`, `vault`, `lp_token_pool`) and the three bump
fields are omitted as addressing concerns. -/
structure CapitalCall where
  start_time : Nat
  end_time : Nat
  capacity : Nat
  allocated : Nat
  redeemed : Nat
  token_liquidity : Nat
  lp_supply : Nat
  credit_outstanding : Nat
  is_lp_minted : Bool
  deriving DecidableEq

/-- `CapitalCall::to_lp_token`:
`u64::try_from(amount as u128 * (self.token_liquidity as u128 + self.credit_outstanding as u128) / self.lp_supply as u128)`.
The two casts to `u128` make the sum exact (it is below `2 ^ 65`), but the
product can reach `2 ^ 129` and wraps modulo `2 ^ 128` in release builds;
division by a zero `lp_supply` panics and aborts the transaction; `try_from`
fails with `CalculationError` when the quotient exceeds `u64::MAX`. -/
def CapitalCall.to_lp_token (cc : CapitalCall) (amount : Nat) :
    Except CapitalCallError Nat :=
  if cc.lp_supply = 0 then
    .error .PanicDivisionByZero
  else
    let q := amount * (cc.token_liquidity + cc.credit_outstanding) % U128_MOD / cc.lp_supply
    if q ≤ U64_MAX then .ok q else .error .CalculationError

/-- Open `Voucher` accounts of one capital call, as `(authority, amount)`
pairs; the `capital_call` back-reference and the bump are implicit.
`findVoucher` is the PDA lookup for the pair `(capital_call, authority)`. -/
def findVoucher : List (Nat × Nat) → Nat → Option Nat
  | [], _ => none
  | (d0, a0) :: rest, d => if d0 = d then some a0 else findVoucher rest d

/-- Destruction of one depositor's voucher (Anchor `close = authority`). -/
def removeVoucher : List (Nat × Nat) → Nat → List (Nat × Nat)
  | [], _ => []
  | (d0, a0) :: rest, d => if d0 = d then rest else (d0, a0) :: removeVoucher rest d

/-- Total amount held by the open vouchers. -/
def sumVouchers : List (Nat × Nat) → Nat
  | [] => 0
  | (_, a0) :: rest => a0 + sumVouchers rest

/-- SPL-token CPIs issued by one instruction, in order. -/
inductive LedgerOp where
  | transfer (amount : Nat)
  | mintTo (amount : Nat)
  | burn (amount : Nat)
  | closeAccount
  deriving DecidableEq

/-- The on-chain state one capital call touches: its account, its open
vouchers, and whether `close` has destroyed the accounts. -/
structure ProgState where
  cc : CapitalCall
  vouchers : List (Nat × Nat)
  closed : Bool
  deriving DecidableEq

/-- `create_capital_call(start_time, duration, capacity, credit_outstanding)`. -/
def create_capital_call (now start_time duration capacity credit_outstanding : Nat) :
    Except CapitalCallError ProgState :=
  if ¬ start_time ≥ now then .error .StartTimeMustBeInFuture
  else if ¬ duration > 0 then .error .DurationNonZero
  else if ¬ capacity > 0 then .error .CapacityNonZero
  else .ok {
    cc := {
      start_time := start_time
      end_time := (start_time + duration) % U64_MOD
      capacity := capacity
      redeemed := 0
      allocated := 0
      is_lp_minted := false
      token_liquidity := 0
      lp_supply := 0
      credit_outstanding := credit_outstanding }
    vouchers := []
    closed := false }

/-- `deposit(amount)`.  Account validation first: the voucher is declared
`#[account(init)]`, so the instruction fails when the depositor already has
a voucher for this capital call.  The handler then checks the window, the
capacity and the amount, clamps the amount with
`amount.min(capacity - allocated)`, transfers the accepted amount into the
vault, adds it to `allocated` and writes the new voucher. -/
def deposit (now depositor amount : Nat) (s : ProgState) :
    Except CapitalCallError (ProgState × List LedgerOp) :=
  if s.closed then .error .AccountNotInitialized
  else if (findVoucher s.vouchers depositor).isSome then .error .AccountAlreadyInitialized
  else if ¬ now ≥ s.cc.start_time then .error .CapitalCallNotStarted
  else if ¬ now < s.cc.end_time then .error .CapitalCallEnded
  else if ¬ s.cc.capacity > s.cc.allocated then .error .CapitalCallAlreadyFullyFunded
  else if ¬ amount > 0 then .error .AmountNonZero
  else
    let accepted := min amount (s.cc.capacity - s.cc.allocated)
    .ok ({ s with
            cc := { s.cc with allocated := (s.cc.allocated + accepted) % U64_MOD }
            vouchers := (depositor, accepted) :: s.vouchers },
         [.transfer accepted])

/-- `refund()`.  The caller's voucher must exist (PDA lookup); the handler
requires `capacity > allocated` and `now >= end_time`, transfers the
voucher's amount from the vault back to the depositor, adds it to
`redeemed`, and the voucher is closed. -/
def refund (now depositor : Nat) (s : ProgState) :
    Except CapitalCallError (ProgState × List LedgerOp) :=
  if s.closed then .error .AccountNotInitialized
  else
    match findVoucher s.vouchers depositor with
    | none => .error .AccountNotInitialized
    | some amount =>
      if ¬ s.cc.capacity > s.cc.allocated then .error .CapitalCallIsFullyFunded
      else if ¬ now ≥ s.cc.end_time then .error .CapitalCallNotEnded
      else
        .ok ({ s with
                cc := { s.cc with redeemed := (s.cc.redeemed + amount) % U64_MOD }
                vouchers := removeVoucher s.vouchers depositor },
             [.transfer amount])

/-- `mint_lp_tokens()`: requires the configured mint authority and a
non-zero circulating LP supply, exits early with success when the capital
is not fully raised or LP tokens were already minted, and otherwise
snapshots `lp_supply` and `token_liquidity`, computes the minted amount via
`to_lp_token(capacity)`, mints it into the LP token pool, moves `capacity`
from the vault into the liquidity pool and sets `is_lp_minted`. -/
def mint_lp_tokens (lp_mint_authority_ok : Bool) (lp_mint_supply liquidity_pool_amount : Nat)
    (s : ProgState) : Except CapitalCallError (ProgState × List LedgerOp) :=
  if s.closed then .error .AccountNotInitialized
  else if ¬ lp_mint_authority_ok then .error .InvalidLpMintAuthority
  else if ¬ lp_mint_supply > 0 then .error .LpTokenSupplyNonZero
  else if s.cc.capacity ≠ s.cc.allocated ∨ s.cc.is_lp_minted then .ok (s, [])
  else
    match CapitalCall.to_lp_token
        { s.cc with lp_supply := lp_mint_supply, token_liquidity := liquidity_pool_amount }
        s.cc.capacity with
    | .error e => .error e
    | .ok minted =>
        .ok ({ s with
                cc := { s.cc with
                  lp_supply := lp_mint_supply
                  token_liquidity := liquidity_pool_amount
                  is_lp_minted := true } },
             [.mintTo minted, .transfer s.cc.capacity])

/-- `claim()`.  The caller's voucher must exist; the handler requires
`is_lp_minted`, computes `lp_amount = to_lp_token(voucher.amount)`,
transfers `lp_amount` LP tokens from the pool to the depositor, adds the
voucher's amount to `redeemed`, and the voucher is closed. -/
def claim (depositor : Nat) (s : ProgState) :
    Except CapitalCallError (ProgState × List LedgerOp) :=
  if s.closed then .error .AccountNotInitialized
  else
    match findVoucher s.vouchers depositor with
    | none => .error .AccountNotInitialized
    | some amount =>
      if ¬ s.cc.is_lp_minted then .error .LpTokenNotMinted
      else
        match s.cc.to_lp_token amount with
        | .error e => .error e
        | .ok lp_amount =>
            .ok ({ s with
                    cc := { s.cc with redeemed := (s.cc.redeemed + amount) % U64_MOD }
                    vouchers := removeVoucher s.vouchers depositor },
                 [.transfer lp_amount])

/-- `close()`.  Mirrors the source's guard structure: when LP tokens were
never minted, `allocated == redeemed` is only required if `now > end_time`;
when they were minted, it is required unconditionally.  On success the vault
balance is swept to the destination, the vault is closed, leftover LP tokens
are burned, the pool account is closed, and the capital-call record is
destroyed (`close = receiver`). -/
def close (now vault_amount lp_token_pool_amount : Nat) (s : ProgState) :
    Except CapitalCallError (ProgState × List LedgerOp) :=
  if s.closed then .error .AccountNotInitialized
  else if ¬ s.cc.is_lp_minted then
    if now > s.cc.end_time ∧ s.cc.allocated ≠ s.cc.redeemed then
      .error .CapitalCallHasToBeFullyRefunded
    else
      .ok ({ s with closed := true },
           [.transfer vault_amount, .closeAccount, .burn lp_token_pool_amount, .closeAccount])
  else if s.cc.allocated ≠ s.cc.redeemed then .error .LpTokensHasToBeFullyDistributed
  else
    .ok ({ s with closed := true },
         [.transfer vault_amount, .closeAccount, .burn lp_token_pool_amount, .closeAccount])

/-- One instruction invocation, with its non-capital-call account inputs
(external LP mint supply, liquidity-pool balance, escrow balances) inlined
as parameters. -/
inductive Op where
  | depositOp (depositor amount : Nat)
  | refundOp (depositor : Nat)
  | mintLpTokensOp (lp_mint_authority_ok : Bool) (lp_mint_supply liquidity_pool_amount : Nat)
  | claimOp (depositor : Nat)
  | closeOp (vault_amount lp_token_pool_amount : Nat)
  deriving DecidableEq

/-- Dispatch one instruction at clock value `now`. -/
def step (now : Nat) (op : Op) (s : ProgState) :
    Except CapitalCallError (ProgState × List LedgerOp) :=
  match op with
  | .depositOp d a => deposit now d a s
  | .refundOp d => refund now d s
  | .mintLpTokensOp authOk supply pool => mint_lp_tokens authOk supply pool s
  | .claimOp d => claim d s
  | .closeOp v l => close now v l s

/-- A failed instruction is a rolled-back transaction: the state is kept. -/
def applyStep (s : ProgState) (t_op : Nat × Op) : ProgState :=
  match step t_op.1 t_op.2 s with
  | .ok (s1, _) => s1
  | .error _ => s

/-- Run a timed sequence of instructions. -/
def run (s : ProgState) (ops : List (Nat × Op)) : ProgState :=
  ops.foldl applyStep s

def isOk {α : Type} : Except CapitalCallError α → Bool
  | .ok _ => true
  | .error _ => false

/-- The trusted clock is monotone: successive timestamps never decrease,
and the first one is at least `t`. -/
def timesMono : Nat → List (Nat × Op) → Bool
  | _, [] => true
  | t, (t0, _) :: rest => decide (t ≤ t0) && timesMono t0 rest

def isSettleBy (d : Nat) : Op → Bool
  | .refundOp d0 => d0 == d
  | .claimOp d0 => d0 == d
  | _ => false

/-- Number of successful settlements (refund or claim) by depositor `d`
along a timed instruction sequence. -/
def settleCount (d : Nat) : ProgState → List (Nat × Op) → Nat
  | _, [] => 0
  | s, t_op :: rest =>
      (if isSettleBy d t_op.2 && isOk (step t_op.1 t_op.2 s) then 1 else 0)
      + settleCount d (applyStep s t_op) rest

def isDepositBy (d : Nat) : Op → Bool
  | .depositOp d0 _ => d0 == d
  | _ => false

/-- Number of successful deposits by depositor `d` along a timed
instruction sequence. -/
def depositCount (d : Nat) : ProgState → List (Nat × Op) → Nat
  | _, [] => 0
  | s, t_op :: rest =>
      (if isDepositBy d t_op.2 && isOk (step t_op.1 t_op.2 s) then 1 else 0)
      + depositCount d (applyStep s t_op) rest

/-- Structural invariant of a capital call's state, established by
`create_capital_call` (for a `u64` capacity) and preserved by every
instruction. -/
def Inv (s : ProgState) : Prop :=
  s.cc.capacity ≤ U64_MAX ∧
  s.cc.allocated ≤ s.cc.capacity ∧
  s.cc.redeemed + sumVouchers s.vouchers = s.cc.allocated ∧
  (s.cc.is_lp_minted = true → s.cc.allocated = s.cc.capacity) ∧
  (s.vouchers.map Prod.fst).Nodup

instance (s : ProgState) : Decidable (Inv s) := by
  unfold Inv
  infer_instance

theorem findVoucher_eq_none_iff (vs : List (Nat × Nat)) (d : Nat) :
    findVoucher vs d = none ↔ d ∉ vs.map Prod.fst := by
  induction vs with
  | nil => simp [findVoucher]
  | cons hd tl ih =>
    obtain ⟨d0, a0⟩ := hd
    by_cases h1 : d0 = d
    · simp [findVoucher, h1]
    · simp [findVoucher, h1, ih, Ne.symm h1]

theorem findVoucher_none_remove (vs : List (Nat × Nat)) (d x : Nat)
    (h : findVoucher vs d = none) : findVoucher (removeVoucher vs x) d = none := by
  induction vs with
  | nil => simp [removeVoucher, findVoucher]
  | cons hd tl ih =>
    obtain ⟨d0, a0⟩ := hd
    by_cases h1 : d0 = d
    · simp [findVoucher, h1] at h
    · rw [findVoucher] at h
      simp only [h1, if_false] at h
      by_cases h2 : d0 = x
      · simpa [removeVoucher, h2] using h
      · simp [removeVoucher, h2, findVoucher, h1, ih h]

theorem sum_removeVoucher (vs : List (Nat × Nat)) (d a : Nat)
    (h : findVoucher vs d = some a) :
    a + sumVouchers (removeVoucher vs d) = sumVouchers vs := by
  induction vs with
  | nil => simp [findVoucher] at h
  | cons hd tl ih =>
    obtain ⟨d0, a0⟩ := hd
    by_cases h1 : d0 = d
    · rw [findVoucher] at h
      simp only [h1, if_true] at h
      obtain rfl : a0 = a := by injection h
      simp [removeVoucher, h1, sumVouchers]
    · rw [findVoucher] at h
      simp only [h1, if_false] at h
      have := ih h
      simp only [removeVoucher, h1, if_false, sumVouchers]
      omega

theorem findVoucher_le_sum (vs : List (Nat × Nat)) (d a : Nat)
    (h : findVoucher vs d = some a) : a ≤ sumVouchers vs := by
  have := sum_removeVoucher vs d a h
  omega

theorem mem_keys_removeVoucher (vs : List (Nat × Nat)) (d x : Nat)
    (h : x ∈ (removeVoucher vs d).map Prod.fst) : x ∈ vs.map Prod.fst := by
  induction vs with
  | nil => simp [removeVoucher] at h
  | cons hd tl ih =>
    obtain ⟨d0, a0⟩ := hd
    by_cases h1 : d0 = d
    · simp only [removeVoucher, h1, if_true] at h
      simp [h]
    · simp only [removeVoucher, h1, if_false, List.map_cons, List.mem_cons] at h
      rcases h with h | h
      · simp [h]
      · simp [ih h]

theorem nodup_removeVoucher (vs : List (Nat × Nat)) (d : Nat)
    (h : (vs.map Prod.fst).Nodup) : ((removeVoucher vs d).map Prod.fst).Nodup := by
  induction vs with
  | nil => simp [removeVoucher]
  | cons hd tl ih =>
    obtain ⟨d0, a0⟩ := hd
    simp only [List.map_cons, List.nodup_cons] at h
    by_cases h1 : d0 = d
    · simpa [removeVoucher, h1] using h.2
    · simp only [removeVoucher, h1, if_false, List.map_cons, List.nodup_cons]
      exact ⟨fun hmem => h.1 (mem_keys_removeVoucher tl d d0 hmem), ih h.2⟩

theorem findVoucher_remove_self (vs : List (Nat × Nat)) (d : Nat)
    (h : (vs.map Prod.fst).Nodup) : findVoucher (removeVoucher vs d) d = none := by
  induction vs with
  | nil => simp [removeVoucher, findVoucher]
  | cons hd tl ih =>
    obtain ⟨d0, a0⟩ := hd
    simp only [List.map_cons, List.nodup_cons] at h
    by_cases h1 : d0 = d
    · simp only [removeVoucher, h1, if_true]
      rw [findVoucher_eq_none_iff]
      rw [h1] at h
      exact h.1
    · simp only [removeVoucher, h1, if_false, findVoucher, ih h.2]

theorem deposit_ok_inversion (now d a : Nat) (s s1 : ProgState) (eff : List LedgerOp)
    (h : deposit now d a s = .ok (s1, eff)) :
    s.closed = false ∧ findVoucher s.vouchers d = none ∧
    s.cc.start_time ≤ now ∧ now < s.cc.end_time ∧ s.cc.allocated < s.cc.capacity ∧ 0 < a ∧
    s1 = { s with
            cc := { s.cc with
              allocated := (s.cc.allocated + min a (s.cc.capacity - s.cc.allocated)) % U64_MOD }
            vouchers := (d, min a (s.cc.capacity - s.cc.allocated)) :: s.vouchers } ∧
    eff = [.transfer (min a (s.cc.capacity - s.cc.allocated))] := by
  unfold deposit at h
  split_ifs at h with h1 h2 h3 h4 h5 h6
  simp only [Except.ok.injEq, Prod.mk.injEq] at h
  refine ⟨by simpa using h1, by simpa using h2, by omega, by omega, by omega, by omega, ?_, ?_⟩
  · exact h.1.symm
  · exact h.2.symm

theorem refund_ok_inversion (now d : Nat) (s s1 : ProgState) (eff : List LedgerOp)
    (h : refund now d s = .ok (s1, eff)) :
    ∃ a, s.closed = false ∧ findVoucher s.vouchers d = some a ∧
      s.cc.allocated < s.cc.capacity ∧ s.cc.end_time ≤ now ∧
      s1 = { s with
              cc := { s.cc with redeemed := (s.cc.redeemed + a) % U64_MOD }
              vouchers := removeVoucher s.vouchers d } ∧
      eff = [.transfer a] := by
  unfold refund at h
  cases hv : findVoucher s.vouchers d with
  | none =>
    simp only [hv] at h
    split_ifs at h
  | some a =>
    simp only [hv] at h
    split_ifs at h with h1 h2 h3
    simp only [Except.ok.injEq, Prod.mk.injEq] at h
    exact ⟨a, by simpa using h1, rfl, by omega, by omega, h.1.symm, h.2.symm⟩

theorem claim_ok_inversion (d : Nat) (s s1 : ProgState) (eff : List LedgerOp)
    (h : claim d s = .ok (s1, eff)) :
    ∃ a lp, s.closed = false ∧ findVoucher s.vouchers d = some a ∧
      s.cc.is_lp_minted = true ∧ s.cc.to_lp_token a = .ok lp ∧
      s1 = { s with
              cc := { s.cc with redeemed := (s.cc.redeemed + a) % U64_MOD }
              vouchers := removeVoucher s.vouchers d } ∧
      eff = [.transfer lp] := by
  unfold claim at h
  cases hv : findVoucher s.vouchers d with
  | none =>
    simp only [hv] at h
    split_ifs at h
  | some a =>
    simp only [hv] at h
    cases hlp : s.cc.to_lp_token a with
    | error e =>
      simp only [hlp] at h
      split_ifs at h
    | ok lp =>
      simp only [hlp] at h
      split_ifs at h with h1 h2
      simp only [Except.ok.injEq, Prod.mk.injEq] at h
      exact ⟨a, lp, by simpa using h1, rfl, by simpa using h2, hlp, h.1.symm, h.2.symm⟩

theorem mint_lp_tokens_ok_inversion (authOk : Bool) (supply pool : Nat)
    (s s1 : ProgState) (eff : List LedgerOp)
    (h : mint_lp_tokens authOk supply pool s = .ok (s1, eff)) :
    s.closed = false ∧ authOk = true ∧ 0 < supply ∧
    (((s.cc.capacity ≠ s.cc.allocated ∨ s.cc.is_lp_minted = true) ∧ s1 = s ∧ eff = []) ∨
     (s.cc.capacity = s.cc.allocated ∧ s.cc.is_lp_minted = false ∧
      ∃ minted,
        CapitalCall.to_lp_token
          { s.cc with lp_supply := supply, token_liquidity := pool } s.cc.capacity
          = .ok minted ∧
        s1 = { s with
                cc := { s.cc with
                  lp_supply := supply, token_liquidity := pool, is_lp_minted := true } } ∧
        eff = [.mintTo minted, .transfer s.cc.capacity])) := by
  unfold mint_lp_tokens at h
  cases hlp : CapitalCall.to_lp_token
      { s.cc with lp_supply := supply, token_liquidity := pool } s.cc.capacity with
  | error e =>
    simp only [hlp] at h
    split_ifs at h with h1 h2 h3 h4
    simp only [Except.ok.injEq, Prod.mk.injEq] at h
    exact ⟨by simpa using h1, by simpa using h2, by omega, .inl ⟨h4, h.1.symm, h.2.symm⟩⟩
  | ok minted =>
    simp only [hlp] at h
    split_ifs at h with h1 h2 h3 h4
    · simp only [Except.ok.injEq, Prod.mk.injEq] at h
      exact ⟨by simpa using h1, by simpa using h2, by omega, .inl ⟨h4, h.1.symm, h.2.symm⟩⟩
    · simp only [Except.ok.injEq, Prod.mk.injEq] at h
      push_neg at h4
      exact ⟨by simpa using h1, by simpa using h2, by omega,
        .inr ⟨h4.1, by simpa using h4.2, minted, rfl, h.1.symm, h.2.symm⟩⟩

theorem close_ok_inversion (now v l : Nat) (s s1 : ProgState) (eff : List LedgerOp)
    (h : close now v l s = .ok (s1, eff)) :
    s.closed = false ∧
    (if s.cc.is_lp_minted then s.cc.allocated = s.cc.redeemed
     else ¬(s.cc.end_time < now ∧ s.cc.allocated ≠ s.cc.redeemed)) ∧
    s1 = { s with closed := true } ∧
    eff = [.transfer v, .closeAccount, .burn l, .closeAccount] := by
  unfold close at h
  split_ifs at h with h1 h2 h3 h4 <;>
    simp only [Except.ok.injEq, Prod.mk.injEq] at h
  · have hm : s.cc.is_lp_minted = true := by simpa using h2
    refine ⟨by simpa using h1, ?_, h.1.symm, h.2.symm⟩
    simp only [hm, if_true]
    omega
  · have hm : s.cc.is_lp_minted = false := by simpa using h2
    refine ⟨by simpa using h1, ?_, h.1.symm, h.2.symm⟩
    simp only [hm, Bool.false_eq_true, if_false]
    exact h4

theorem U64_MAX_lt_MOD : U64_MAX < U64_MOD := by
  unfold U64_MAX U64_MOD
  omega

theorem applyStep_error (s : ProgState) (t : Nat) (op : Op) (e : CapitalCallError)
    (h : step t op s = .error e) : applyStep s (t, op) = s := by
  unfold applyStep
  rw [h]

theorem applyStep_ok (s s1 : ProgState) (t : Nat) (op : Op) (eff : List LedgerOp)
    (h : step t op s = .ok (s1, eff)) : applyStep s (t, op) = s1 := by
  unfold applyStep
  rw [h]

theorem inv_applyStep (s : ProgState) (t : Nat) (op : Op) (h : Inv s) :
    Inv (applyStep s (t, op)) := by
  obtain ⟨hcap, halloc, hsum, hmint, hnodup⟩ := h
  unfold applyStep
  cases hstep : step t op s with
  | error e => exact ⟨hcap, halloc, hsum, hmint, hnodup⟩
  | ok p =>
    obtain ⟨s1, eff⟩ := p
    cases op with
    | depositOp d a =>
      obtain ⟨hc, hf, _, _, hlt, _, hs1, _⟩ := deposit_ok_inversion t d a s s1 eff hstep
      subst hs1
      have hacc : min a (s.cc.capacity - s.cc.allocated) ≤ s.cc.capacity - s.cc.allocated :=
        Nat.min_le_right _ _
      have hmod : (s.cc.allocated + min a (s.cc.capacity - s.cc.allocated)) % U64_MOD
          = s.cc.allocated + min a (s.cc.capacity - s.cc.allocated) := by
        apply Nat.mod_eq_of_lt
        have := U64_MAX_lt_MOD
        omega
      refine ⟨hcap, ?_, ?_, ?_, ?_⟩
      · dsimp only
        rw [hmod]
        omega
      · dsimp only [sumVouchers]
        rw [hmod]
        omega
      · intro hm
        exact absurd (hmint hm) (by omega)
      · dsimp only
        simp only [List.map_cons, List.nodup_cons]
        exact ⟨(findVoucher_eq_none_iff _ _).mp hf, hnodup⟩
    | refundOp d =>
      obtain ⟨a, hc, hf, hlt, hend, hs1, _⟩ := refund_ok_inversion t d s s1 eff hstep
      subst hs1
      have hveq := sum_removeVoucher s.vouchers d a hf
      have hle : a ≤ sumVouchers s.vouchers := findVoucher_le_sum s.vouchers d a hf
      have hmod : (s.cc.redeemed + a) % U64_MOD = s.cc.redeemed + a := by
        apply Nat.mod_eq_of_lt
        have := U64_MAX_lt_MOD
        omega
      refine ⟨hcap, halloc, ?_, hmint, nodup_removeVoucher _ _ hnodup⟩
      dsimp only
      rw [hmod]
      omega
    | claimOp d =>
      obtain ⟨a, lp, hc, hf, hm, hlp, hs1, _⟩ := claim_ok_inversion d s s1 eff hstep
      subst hs1
      have hveq := sum_removeVoucher s.vouchers d a hf
      have hle : a ≤ sumVouchers s.vouchers := findVoucher_le_sum s.vouchers d a hf
      have hmod : (s.cc.redeemed + a) % U64_MOD = s.cc.redeemed + a := by
        apply Nat.mod_eq_of_lt
        have := U64_MAX_lt_MOD
        omega
      refine ⟨hcap, halloc, ?_, hmint, nodup_removeVoucher _ _ hnodup⟩
      dsimp only
      rw [hmod]
      omega
    | mintLpTokensOp authOk supply pool =>
      obtain ⟨hc, ha, hsup, hcase⟩ :=
        mint_lp_tokens_ok_inversion authOk supply pool s s1 eff hstep
      rcases hcase with ⟨_, hs1, _⟩ | ⟨hca, hm0, minted, hlp, hs1, _⟩
      · subst hs1
        exact ⟨hcap, halloc, hsum, hmint, hnodup⟩
      · subst hs1
        refine ⟨hcap, halloc, hsum, ?_, hnodup⟩
        intro _
        dsimp only
        omega
    | closeOp v l =>
      obtain ⟨hc, _, hs1, _⟩ := close_ok_inversion t v l s s1 eff hstep
      subst hs1
      exact ⟨hcap, halloc, hsum, hmint, hnodup⟩

theorem inv_run (s : ProgState) (ops : List (Nat × Op)) (h : Inv s) :
    Inv (run s ops) := by
  induction ops generalizing s with
  | nil => exact h
  | cons t_op rest ih =>
    obtain ⟨t, op⟩ := t_op
    exact ih (applyStep s (t, op)) (inv_applyStep s t op h)

theorem inv_create (now start_time duration capacity credit_outstanding : Nat) (s : ProgState)
    (hcap : capacity ≤ U64_MAX)
    (h : create_capital_call now start_time duration capacity credit_outstanding = .ok s) :
    Inv s := by
  unfold create_capital_call at h
  split_ifs at h
  simp only [Except.ok.injEq] at h
  subst h
  exact ⟨hcap, Nat.zero_le _, by simp [sumVouchers], by simp, by simp⟩

theorem findVoucher_remove_ne (vs : List (Nat × Nat)) (d x : Nat) (hne : x ≠ d) :
    findVoucher (removeVoucher vs x) d = findVoucher vs d := by
  induction vs with
  | nil => simp [removeVoucher]
  | cons hd tl ih =>
    obtain ⟨d0, a0⟩ := hd
    by_cases h1 : d0 = x
    · subst h1
      simp only [removeVoucher, if_true]
      rw [findVoucher]
      simp [hne]
    · by_cases h2 : d0 = d
      · simp [removeVoucher, h1, findVoucher, h2, (Ne.symm hne : d ≠ x)]
      · simp [removeVoucher, h1, findVoucher, h2, ih]

theorem refund_no_voucher (now d : Nat) (s : ProgState)
    (hb : findVoucher s.vouchers d = none) :
    refund now d s = .error .AccountNotInitialized := by
  unfold refund
  simp [hb]

theorem claim_no_voucher (d : Nat) (s : ProgState)
    (hb : findVoucher s.vouchers d = none) :
    claim d s = .error .AccountNotInitialized := by
  unfold claim
  simp [hb]

theorem deposit_blocked (now d a : Nat) (s : ProgState) (hInv : Inv s)
    (hcond : s.cc.end_time ≤ now ∨ s.cc.is_lp_minted = true) :
    isOk (deposit now d a s) = false := by
  cases hok : deposit now d a s with
  | error e => rfl
  | ok p =>
    obtain ⟨s1, eff⟩ := p
    obtain ⟨_, _, _, hlt, hcaplt, _, _, _⟩ := deposit_ok_inversion now d a s s1 eff hok
    rcases hcond with hc | hc
    · omega
    · have := hInv.2.2.2.1 hc
      omega

/-- After depositor `d` has been settled at time `t`: their voucher is gone,
and either the window is over or LP tokens were minted, so no instruction
can ever recreate the voucher under a monotone clock. -/
def SettledBlock (d t : Nat) (s : ProgState) : Prop :=
  findVoucher s.vouchers d = none ∧ (s.cc.end_time ≤ t ∨ s.cc.is_lp_minted = true)

theorem settledBlock_applyStep (d t t0 : Nat) (op : Op) (s : ProgState)
    (hInv : Inv s) (hb : SettledBlock d t s) (hle : t ≤ t0) :
    SettledBlock d t0 (applyStep s (t0, op)) := by
  obtain ⟨hnone, hcond⟩ := hb
  cases hstep : step t0 op s with
  | error e =>
    rw [applyStep_error s t0 op e hstep]
    exact ⟨hnone, by rcases hcond with h | h; exact .inl (by omega); exact .inr h⟩
  | ok p =>
    obtain ⟨s1, eff⟩ := p
    rw [applyStep_ok s s1 t0 op eff hstep]
    cases op with
    | depositOp d0 a =>
      have hfail := deposit_blocked t0 d0 a s hInv
        (by rcases hcond with h | h; exact .inl (by omega); exact .inr h)
      rw [show step t0 (.depositOp d0 a) s = deposit t0 d0 a s from rfl] at hstep
      rw [hstep] at hfail
      simp [isOk] at hfail
    | refundOp d0 =>
      obtain ⟨a, _, hf, _, hend, hs1, _⟩ := refund_ok_inversion t0 d0 s s1 eff hstep
      subst hs1
      refine ⟨findVoucher_none_remove _ _ _ hnone, .inl ?_⟩
      dsimp only
      omega
    | claimOp d0 =>
      obtain ⟨a, lp, _, hf, hm, _, hs1, _⟩ := claim_ok_inversion d0 s s1 eff hstep
      subst hs1
      exact ⟨findVoucher_none_remove _ _ _ hnone, .inr hm⟩
    | mintLpTokensOp authOk supply pool =>
      obtain ⟨_, _, _, hcase⟩ := mint_lp_tokens_ok_inversion authOk supply pool s s1 eff hstep
      rcases hcase with ⟨_, hs1, _⟩ | ⟨_, _, minted, _, hs1, _⟩
      · subst hs1
        exact ⟨hnone, by rcases hcond with h | h; exact .inl (by omega); exact .inr h⟩
      · subst hs1
        exact ⟨hnone, .inr rfl⟩
    | closeOp v l =>
      obtain ⟨_, _, hs1, _⟩ := close_ok_inversion t0 v l s s1 eff hstep
      subst hs1
      refine ⟨hnone, ?_⟩
      rcases hcond with h | h
      · exact .inl (by dsimp only; omega)
      · exact .inr h

theorem settleCount_zero_of_blocked (d : Nat) (ops : List (Nat × Op)) (t : Nat) (s : ProgState)
    (hInv : Inv s) (hb : SettledBlock d t s) (hmono : timesMono t ops = true) :
    settleCount d s ops = 0 := by
  induction ops generalizing s t with
  | nil => rfl
  | cons t_op rest ih =>
    obtain ⟨t0, op⟩ := t_op
    simp only [timesMono, Bool.and_eq_true, decide_eq_true_eq] at hmono
    obtain ⟨hle, hmono1⟩ := hmono
    have hzero : (if isSettleBy d op && isOk (step t0 op s) then 1 else 0) = 0 := by
      cases op with
      | refundOp d0 =>
        simp only [isSettleBy, Bool.and_eq_true, beq_iff_eq]
        by_cases hd : d0 = d
        · subst hd
          rw [show step t0 (.refundOp d0) s = refund t0 d0 s from rfl,
            refund_no_voucher t0 d0 s hb.1]
          simp [isOk]
        · simp [hd]
      | claimOp d0 =>
        simp only [isSettleBy, Bool.and_eq_true, beq_iff_eq]
        by_cases hd : d0 = d
        · subst hd
          rw [show step t0 (.claimOp d0) s = claim d0 s from rfl,
            claim_no_voucher d0 s hb.1]
          simp [isOk]
        · simp [hd]
      | depositOp d0 a => simp [isSettleBy]
      | mintLpTokensOp authOk supply pool => simp [isSettleBy]
      | closeOp v l => simp [isSettleBy]
    rw [settleCount, hzero, Nat.zero_add]
    exact ih t0 (applyStep s (t0, op)) (inv_applyStep s t0 op hInv)
      (settledBlock_applyStep d t t0 op s hInv hb hle) hmono1

theorem settle_le_one_aux (d : Nat) (ops : List (Nat × Op)) (t : Nat) (s : ProgState)
    (hInv : Inv s) (hmono : timesMono t ops = true) :
    settleCount d s ops ≤ 1 := by
  induction ops generalizing s t with
  | nil => simp [settleCount]
  | cons t_op rest ih =>
    obtain ⟨t0, op⟩ := t_op
    simp only [timesMono, Bool.and_eq_true, decide_eq_true_eq] at hmono
    obtain ⟨hle, hmono1⟩ := hmono
    rw [settleCount]
    by_cases hbool : (isSettleBy d op && isOk (step t0 op s)) = true
    · rw [if_pos hbool]
      simp only [Bool.and_eq_true] at hbool
      obtain ⟨hsb, hok⟩ := hbool
      have hnodup := hInv.2.2.2.2
      have hblock : SettledBlock d t0 (applyStep s (t0, op)) := by
        cases op with
        | refundOp d0 =>
          have hd : d0 = d := by simpa [isSettleBy] using hsb
          subst hd
          cases hstep : step t0 (.refundOp d0) s with
          | error e =>
            rw [hstep] at hok
            simp [isOk] at hok
          | ok p =>
            obtain ⟨s1, eff⟩ := p
            rw [applyStep_ok s s1 t0 _ eff hstep]
            obtain ⟨a, _, hf, _, hend, hs1, _⟩ := refund_ok_inversion t0 d0 s s1 eff hstep
            subst hs1
            refine ⟨findVoucher_remove_self _ _ hnodup, .inl ?_⟩
            dsimp only
            omega
        | claimOp d0 =>
          have hd : d0 = d := by simpa [isSettleBy] using hsb
          subst hd
          cases hstep : step t0 (.claimOp d0) s with
          | error e =>
            rw [hstep] at hok
            simp [isOk] at hok
          | ok p =>
            obtain ⟨s1, eff⟩ := p
            rw [applyStep_ok s s1 t0 _ eff hstep]
            obtain ⟨a, lp, _, hf, hm, _, hs1, _⟩ := claim_ok_inversion d0 s s1 eff hstep
            subst hs1
            exact ⟨findVoucher_remove_self _ _ hnodup, .inr hm⟩
        | depositOp d0 a => simp [isSettleBy] at hsb
        | mintLpTokensOp x y z => simp [isSettleBy] at hsb
        | closeOp v l => simp [isSettleBy] at hsb
      rw [settleCount_zero_of_blocked d rest t0 (applyStep s (t0, op))
        (inv_applyStep s t0 op hInv) hblock hmono1]
    · rw [if_neg hbool, Nat.zero_add]
      exact ih t0 (applyStep s (t0, op)) (inv_applyStep s t0 op hInv) hmono1

/-- Once depositor `d` holds a voucher — or the window is over, or LP
tokens were minted — no later deposit by `d` can succeed under a monotone
clock. -/
def DepositBlock (d t : Nat) (s : ProgState) : Prop :=
  (findVoucher s.vouchers d).isSome = true ∨ s.cc.end_time ≤ t ∨ s.cc.is_lp_minted = true

theorem depositBlock_mono (d t t0 : Nat) (s : ProgState)
    (hb : DepositBlock d t s) (hle : t ≤ t0) : DepositBlock d t0 s := by
  rcases hb with h | h | h
  · exact .inl h
  · exact .inr (.inl (by omega))
  · exact .inr (.inr h)

theorem deposit_fails_of_block (now d a : Nat) (s : ProgState) (hInv : Inv s)
    (hb : DepositBlock d now s) : isOk (deposit now d a s) = false := by
  rcases hb with hv | hc
  · cases hok : deposit now d a s with
    | error e => rfl
    | ok p =>
      obtain ⟨s1, eff⟩ := p
      obtain ⟨_, hf, _, _, _, _, _, _⟩ := deposit_ok_inversion now d a s s1 eff hok
      rw [hf] at hv
      simp at hv
  · exact deposit_blocked now d a s hInv hc

theorem depositBlock_applyStep (d t t0 : Nat) (op : Op) (s : ProgState)
    (hInv : Inv s) (hb : DepositBlock d t s) (hle : t ≤ t0) :
    DepositBlock d t0 (applyStep s (t0, op)) := by
  cases hstep : step t0 op s with
  | error e =>
    rw [applyStep_error s t0 op e hstep]
    exact depositBlock_mono d t t0 s hb hle
  | ok p =>
    obtain ⟨s1, eff⟩ := p
    rw [applyStep_ok s s1 t0 op eff hstep]
    cases op with
    | depositOp d0 a =>
      obtain ⟨_, hf, _, hend, hcap, _, hs1, _⟩ := deposit_ok_inversion t0 d0 a s s1 eff hstep
      subst hs1
      rcases hb with h | h | h
      · left
        dsimp only
        rw [findVoucher]
        by_cases hd : d0 = d
        · simp [hd]
        · simpa [hd] using h
      · omega
      · have := hInv.2.2.2.1 h
        omega
    | refundOp d0 =>
      obtain ⟨a2, _, hf, _, hend, hs1, _⟩ := refund_ok_inversion t0 d0 s s1 eff hstep
      subst hs1
      right; left
      dsimp only
      omega
    | claimOp d0 =>
      obtain ⟨a2, lp, _, hf, hm, _, hs1, _⟩ := claim_ok_inversion d0 s s1 eff hstep
      subst hs1
      right; right
      exact hm
    | mintLpTokensOp x y z =>
      obtain ⟨_, _, _, hcase⟩ := mint_lp_tokens_ok_inversion x y z s s1 eff hstep
      rcases hcase with ⟨_, hs1, _⟩ | ⟨_, _, minted, _, hs1, _⟩
      · subst hs1
        exact depositBlock_mono d t t0 _ hb hle
      · subst hs1
        exact .inr (.inr rfl)
    | closeOp v l =>
      obtain ⟨_, _, hs1, _⟩ := close_ok_inversion t0 v l s s1 eff hstep
      subst hs1
      rcases hb with h | h | h
      · exact .inl h
      · exact .inr (.inl (by dsimp only; omega))
      · exact .inr (.inr h)

theorem depositCount_zero_of_block (d : Nat) (ops : List (Nat × Op)) (t : Nat) (s : ProgState)
    (hInv : Inv s) (hb : DepositBlock d t s) (hmono : timesMono t ops = true) :
    depositCount d s ops = 0 := by
  induction ops generalizing s t with
  | nil => rfl
  | cons t_op rest ih =>
    obtain ⟨t0, op⟩ := t_op
    simp only [timesMono, Bool.and_eq_true, decide_eq_true_eq] at hmono
    obtain ⟨hle, hmono1⟩ := hmono
    have hzero : (if isDepositBy d op && isOk (step t0 op s) then 1 else 0) = 0 := by
      cases op with
      | depositOp d0 a =>
        by_cases hd : d0 = d
        · subst hd
          have hfail := deposit_fails_of_block t0 d0 a s hInv (depositBlock_mono d0 t t0 s hb hle)
          simp [isDepositBy, step, hfail]
        · simp [isDepositBy, hd]
      | refundOp d0 => simp [isDepositBy]
      | claimOp d0 => simp [isDepositBy]
      | mintLpTokensOp x y z => simp [isDepositBy]
      | closeOp v l => simp [isDepositBy]
    rw [depositCount, hzero, Nat.zero_add]
    exact ih t0 (applyStep s (t0, op)) (inv_applyStep s t0 op hInv)
      (depositBlock_applyStep d t t0 op s hInv hb hle) hmono1

theorem deposit_le_one_aux (d : Nat) (ops : List (Nat × Op)) (t : Nat) (s : ProgState)
    (hInv : Inv s) (hmono : timesMono t ops = true) :
    depositCount d s ops ≤ 1 := by
  induction ops generalizing s t with
  | nil => simp [depositCount]
  | cons t_op rest ih =>
    obtain ⟨t0, op⟩ := t_op
    simp only [timesMono, Bool.and_eq_true, decide_eq_true_eq] at hmono
    obtain ⟨hle, hmono1⟩ := hmono
    rw [depositCount]
    by_cases hbool : (isDepositBy d op && isOk (step t0 op s)) = true
    · rw [if_pos hbool]
      simp only [Bool.and_eq_true] at hbool
      obtain ⟨hdb, hok⟩ := hbool
      have hblock : DepositBlock d t0 (applyStep s (t0, op)) := by
        cases op with
        | depositOp d0 a =>
          have hd : d0 = d := by simpa [isDepositBy] using hdb
          subst hd
          cases hstep : step t0 (.depositOp d0 a) s with
          | error e =>
            rw [hstep] at hok
            simp [isOk] at hok
          | ok p =>
            obtain ⟨s1, eff⟩ := p
            rw [applyStep_ok s s1 t0 _ eff hstep]
            obtain ⟨_, _, _, _, _, _, hs1, _⟩ := deposit_ok_inversion t0 d0 a s s1 eff hstep
            subst hs1
            left
            dsimp only
            rw [findVoucher]
            simp
        | refundOp d0 => simp [isDepositBy] at hdb
        | claimOp d0 => simp [isDepositBy] at hdb
        | mintLpTokensOp x y z => simp [isDepositBy] at hdb
        | closeOp v l => simp [isDepositBy] at hdb
      rw [depositCount_zero_of_block d rest t0 (applyStep s (t0, op))
        (inv_applyStep s t0 op hInv) hblock hmono1]
    · rw [if_neg hbool, Nat.zero_add]
      exact ih t0 (applyStep s (t0, op)) (inv_applyStep s t0 op hInv) hmono1

theorem redeemed_mono_applyStep (s : ProgState) (t : Nat) (op : Op) (hInv : Inv s) :
    s.cc.redeemed ≤ (applyStep s (t, op)).cc.redeemed := by
  obtain ⟨hcap, halloc, hsum, _, _⟩ := hInv
  cases hstep : step t op s with
  | error e =>
    rw [applyStep_error s t op e hstep]
  | ok p =>
    obtain ⟨s1, eff⟩ := p
    rw [applyStep_ok s s1 t op eff hstep]
    cases op with
    | depositOp d a =>
      obtain ⟨_, _, _, _, _, _, hs1, _⟩ := deposit_ok_inversion t d a s s1 eff hstep
      subst hs1
      exact Nat.le_refl _
    | refundOp d =>
      obtain ⟨a, _, hf, _, _, hs1, _⟩ := refund_ok_inversion t d s s1 eff hstep
      subst hs1
      have hle := findVoucher_le_sum s.vouchers d a hf
      have := U64_MAX_lt_MOD
      dsimp only
      rw [Nat.mod_eq_of_lt (by omega)]
      omega
    | claimOp d =>
      obtain ⟨a, lp, _, hf, _, _, hs1, _⟩ := claim_ok_inversion d s s1 eff hstep
      subst hs1
      have hle := findVoucher_le_sum s.vouchers d a hf
      have := U64_MAX_lt_MOD
      dsimp only
      rw [Nat.mod_eq_of_lt (by omega)]
      omega
    | mintLpTokensOp x y z =>
      obtain ⟨_, _, _, hcase⟩ := mint_lp_tokens_ok_inversion x y z s s1 eff hstep
      rcases hcase with ⟨_, hs1, _⟩ | ⟨_, _, minted, _, hs1, _⟩ <;> subst hs1 <;>
        exact Nat.le_refl _
    | closeOp v l =>
      obtain ⟨_, _, hs1, _⟩ := close_ok_inversion t v l s s1 eff hstep
      subst hs1
      exact Nat.le_refl _

def isDepositOp : Op → Bool
  | .depositOp _ _ => true
  | _ => false

/-- A deposit-only instruction sequence. -/
def onlyDeposits (ops : List (Nat × Op)) : Bool :=
  ops.all fun p => isDepositOp p.2

theorem redeemed_run_deposits (s : ProgState) (ops : List (Nat × Op))
    (hdeps : onlyDeposits ops = true) :
    (run s ops).cc.redeemed = s.cc.redeemed := by
  induction ops generalizing s with
  | nil => rfl
  | cons p rest ih =>
    obtain ⟨t, op⟩ := p
    simp only [onlyDeposits, List.all_cons, Bool.and_eq_true] at hdeps
    obtain ⟨hop, hrest⟩ := hdeps
    have h2 : (applyStep s (t, op)).cc.redeemed = s.cc.redeemed := by
      cases op with
      | depositOp d a =>
        cases hstep : step t (Op.depositOp d a) s with
        | error e => rw [applyStep_error _ _ _ _ hstep]
        | ok q =>
          obtain ⟨s1, eff⟩ := q
          rw [applyStep_ok _ _ _ _ _ hstep]
          obtain ⟨_, _, _, _, _, _, hs1, _⟩ := deposit_ok_inversion t d a s s1 eff hstep
          subst hs1
          rfl
      | refundOp d => simp [isDepositOp] at hop
      | claimOp d => simp [isDepositOp] at hop
      | mintLpTokensOp x y z => simp [isDepositOp] at hop
      | closeOp v l => simp [isDepositOp] at hop
    have hrun : run s ((t, op) :: rest) = run (applyStep s (t, op)) rest := by
      simp [run]
    rw [hrun, ih _ hrest, h2]

/-- C1 counterexample: a never-converted capital call whose window is still
open (now = 5, end_time = 10) with an unsettled contribution
(redeemed = 0 < allocated = 5, one open voucher).  `close` succeeds and
destroys the accounts, while the claim says it must fail with
MustRefundFirst because `now > end_time` and `redeemed == allocated` do not
hold. -/
theorem close_open_window_counterexample :
    close 5 0 0 ⟨⟨0, 10, 100, 5, 0, 0, 0, 0, false⟩, [(1, 5)], false⟩
      = .ok (⟨⟨0, 10, 100, 5, 0, 0, 0, 0, false⟩, [(1, 5)], true⟩,
             [.transfer 0, .closeAccount, .burn 0, .closeAccount]) ∧
    (⟨⟨0, 10, 100, 5, 0, 0, 0, 0, false⟩, [(1, 5)], false⟩ : ProgState).cc.is_lp_minted = false ∧
    ¬ 5 > (⟨⟨0, 10, 100, 5, 0, 0, 0, 0, false⟩, [(1, 5)], false⟩ : ProgState).cc.end_time ∧
    (⟨⟨0, 10, 100, 5, 0, 0, 0, 0, false⟩, [(1, 5)], false⟩ : ProgState).cc.redeemed
      < (⟨⟨0, 10, 100, 5, 0, 0, 0, 0, false⟩, [(1, 5)], false⟩ : ProgState).cc.allocated := by
  exact ⟨by decide, by decide, by decide, by decide⟩

/-- C1 (amended): for a never-converted capital call, `close` fails with
`CapitalCallHasToBeFullyRefunded` (MustRefundFirst) exactly when
`now > end_time` and `redeemed ≠ allocated`; when `now ≤ end_time` it
succeeds regardless of `redeemed` and `allocated` — even while the window
is open with unsettled contributions.  For a converted capital call, it
fails with `LpTokensHasToBeFullyDistributed` (MustDistributeFirst) unless
`redeemed == allocated`. -/
theorem close_characterization (now v l : Nat) (s : ProgState) (hc : s.closed = false) :
    (s.cc.is_lp_minted = false →
      (now > s.cc.end_time ∧ s.cc.allocated ≠ s.cc.redeemed →
        close now v l s = .error .CapitalCallHasToBeFullyRefunded) ∧
      (now ≤ s.cc.end_time ∨ s.cc.allocated = s.cc.redeemed →
        close now v l s = .ok ({ s with closed := true },
          [.transfer v, .closeAccount, .burn l, .closeAccount]))) ∧
    (s.cc.is_lp_minted = true →
      (s.cc.allocated ≠ s.cc.redeemed →
        close now v l s = .error .LpTokensHasToBeFullyDistributed) ∧
      (s.cc.allocated = s.cc.redeemed →
        close now v l s = .ok ({ s with closed := true },
          [.transfer v, .closeAccount, .burn l, .closeAccount]))) := by
  refine ⟨fun hm => ⟨fun hcond => ?_, fun hok => ?_⟩, fun hm => ⟨fun hne => ?_, fun heq => ?_⟩⟩ <;>
    unfold close <;> rw [if_neg (by simp [hc])]
  · rw [if_pos (by simp [hm]), if_pos hcond]
  · rw [if_pos (by simp [hm]), if_neg (by omega)]
  · rw [if_neg (by simp [hm]), if_pos hne]
  · rw [if_neg (by simp [hm]), if_neg (by omega)]

/-- C1 witness: concrete instances of both branches of
`close_characterization`. -/
theorem close_characterization_witness :
    close 20 3 4 ⟨⟨0, 10, 100, 5, 0, 0, 0, 0, false⟩, [(1, 5)], false⟩
      = .error .CapitalCallHasToBeFullyRefunded ∧
    close 20 3 4 ⟨⟨0, 10, 100, 100, 40, 0, 0, 0, true⟩, [(1, 60)], false⟩
      = .error .LpTokensHasToBeFullyDistributed :=
  ⟨((close_characterization 20 3 4 ⟨⟨0, 10, 100, 5, 0, 0, 0, 0, false⟩, [(1, 5)], false⟩
      (by decide)).1 (by decide)).1 (by decide),
   ((close_characterization 20 3 4 ⟨⟨0, 10, 100, 100, 40, 0, 0, 0, true⟩, [(1, 60)], false⟩
      (by decide)).2 (by decide)).1 (by decide)⟩

/-- C2 counterexample: depositor 1 already holds a voucher of amount 100;
a further deposit of 50 inside the window with spare capacity fails with
the account-already-in-use error from the voucher's `#[account(init)]`
constraint, while the claim says it must succeed and raise the voucher to
150. -/
theorem second_deposit_counterexample :
    deposit 5 1 50 ⟨⟨0, 10, 1000, 100, 0, 0, 0, 0, false⟩, [(1, 100)], false⟩
      = .error .AccountAlreadyInitialized ∧
    findVoucher [(1, 100)] 1 = some 100 ∧
    (0:Nat) ≤ 5 ∧ (5:Nat) < 10 ∧ (100:Nat) < 1000 ∧ (0:Nat) < 50 := by
  exact ⟨by decide, by decide, by decide, by decide, by decide, by decide⟩

/-- C2 (amended): an accepted deposit creates the depositor's voucher with
the accepted amount when the depositor has none; when a voucher for the
same (capital call, depositor) pair already exists, the deposit always
fails with the duplicate-`init` error and changes nothing, so a voucher's
amount is the accepted amount of the depositor's single successful
deposit. -/
theorem deposit_voucher_behavior (now d a : Nat) (s : ProgState) (hc : s.closed = false) :
    (findVoucher s.vouchers d = none → s.cc.start_time ≤ now → now < s.cc.end_time →
      s.cc.allocated < s.cc.capacity → 0 < a →
      deposit now d a s = .ok ({ s with
          cc := { s.cc with
            allocated := (s.cc.allocated + min a (s.cc.capacity - s.cc.allocated)) % U64_MOD }
          vouchers := (d, min a (s.cc.capacity - s.cc.allocated)) :: s.vouchers },
        [.transfer (min a (s.cc.capacity - s.cc.allocated))])) ∧
    (∀ a0, findVoucher s.vouchers d = some a0 →
      deposit now d a s = .error .AccountAlreadyInitialized) := by
  constructor
  · intro hf h1 h2 h3 h4
    unfold deposit
    rw [if_neg (by simp [hc]), if_neg (by simp [hf]), if_neg (by omega), if_neg (by omega),
      if_neg (by omega), if_neg (by omega)]
  · intro a0 hf
    unfold deposit
    rw [if_neg (by simp [hc]), if_pos (by simp [hf])]

/-- C2 witness: a fresh deposit of 70 into an empty call of capacity 1000
creates the voucher (1, 70); the duplicate deposit then fails. -/
theorem deposit_voucher_behavior_witness :
    deposit 5 1 70 ⟨⟨0, 10, 1000, 0, 0, 0, 0, 0, false⟩, [], false⟩
      = .ok (⟨⟨0, 10, 1000, 70, 0, 0, 0, 0, false⟩, [(1, 70)], false⟩, [.transfer 70]) ∧
    deposit 6 1 70 ⟨⟨0, 10, 1000, 70, 0, 0, 0, 0, false⟩, [(1, 70)], false⟩
      = .error .AccountAlreadyInitialized :=
  ⟨(deposit_voucher_behavior 5 1 70 ⟨⟨0, 10, 1000, 0, 0, 0, 0, 0, false⟩, [], false⟩
      (by decide)).1 (by decide) (by decide) (by decide) (by decide) (by decide),
   (deposit_voucher_behavior 6 1 70 ⟨⟨0, 10, 1000, 70, 0, 0, 0, 0, false⟩, [(1, 70)], false⟩
      (by decide)).2 70 (by decide)⟩

/-- C3 counterexample: at amount 2^63 + 1 with token_liquidity and
credit_outstanding both u64::MAX and lp_supply 1, the 128-bit intermediate
product reaches 2^128 + 2^64 - 2 and wraps: the code returns ok (2^64 - 2)
although the exact quotient exceeds u64::MAX, where the claim demands both
that the intermediate never overflows and that CalculationOverflow is
returned exactly when the quotient does not fit u64. -/
theorem to_lp_token_overflow_counterexample :
    CapitalCall.to_lp_token
      { start_time := 0, end_time := 0, capacity := 0, allocated := 0, redeemed := 0,
        token_liquidity := U64_MAX, lp_supply := 1, credit_outstanding := U64_MAX,
        is_lp_minted := true } (2 ^ 63 + 1) = .ok (2 ^ 64 - 2) ∧
    U64_MAX < (2 ^ 63 + 1) * (U64_MAX + U64_MAX) / 1 ∧
    U128_MOD ≤ (2 ^ 63 + 1) * (U64_MAX + U64_MAX) := by
  exact ⟨by decide, by decide, by decide⟩

/-- C3 (amended): whenever the double-width product
`amount * (token_liquidity + credit_outstanding)` fits in 128 bits,
`to_lp_token` computes the exact truncated quotient and returns
CalculationError exactly when that quotient exceeds u64::MAX (aborting the
transaction with no state change); for capacity 1,000,000,
token_liquidity 2,000,000, credit_outstanding 500,000 and
lp_supply 4,000,000 it returns 625,000. -/
theorem to_lp_token_exact (cc : CapitalCall) (amount : Nat)
    (hls : cc.lp_supply ≠ 0)
    (hfit : amount * (cc.token_liquidity + cc.credit_outstanding) < U128_MOD) :
    (cc.to_lp_token amount =
      if amount * (cc.token_liquidity + cc.credit_outstanding) / cc.lp_supply ≤ U64_MAX
      then .ok (amount * (cc.token_liquidity + cc.credit_outstanding) / cc.lp_supply)
      else .error .CalculationError) ∧
    CapitalCall.to_lp_token
      { start_time := 0, end_time := 0, capacity := 1000000, allocated := 1000000,
        redeemed := 0, token_liquidity := 2000000, lp_supply := 4000000,
        credit_outstanding := 500000, is_lp_minted := false } 1000000 = .ok 625000 := by
  constructor
  · unfold CapitalCall.to_lp_token
    rw [if_neg hls, Nat.mod_eq_of_lt hfit]
  · decide

/-- C3 witness: the amended characterization applied at the spec's worked
example. -/
theorem to_lp_token_exact_witness :
    CapitalCall.to_lp_token
      { start_time := 0, end_time := 0, capacity := 1000000, allocated := 1000000,
        redeemed := 0, token_liquidity := 2000000, lp_supply := 4000000,
        credit_outstanding := 500000, is_lp_minted := false } 1000000 = .ok 625000 :=
  (to_lp_token_exact
      { start_time := 0, end_time := 0, capacity := 1000000, allocated := 1000000,
        redeemed := 0, token_liquidity := 2000000, lp_supply := 4000000,
        credit_outstanding := 500000, is_lp_minted := false } 1000000
      (by decide) (by decide)).2

/-- C5: with a valid mint authority and non-zero LP supply, whenever the
capital is not fully raised (`allocated ≠ capacity`) or LP tokens were
already minted, `mint_lp_tokens` returns success with the state completely
unchanged and no token movements; moreover any successful invocation on
such a state (whatever its account inputs) leaves the state unchanged, so
repeated or speculative calls after a conversion are no-ops. -/
theorem mint_lp_tokens_noop (s : ProgState) (authOk : Bool) (supply pool : Nat)
    (hc : s.closed = false) (ha : authOk = true) (hsup : 0 < supply)
    (hcond : s.cc.capacity ≠ s.cc.allocated ∨ s.cc.is_lp_minted = true) :
    mint_lp_tokens authOk supply pool s = .ok (s, []) ∧
    (∀ (authOk2 : Bool) (supply2 pool2 : Nat) (s1 : ProgState) (eff : List LedgerOp),
      mint_lp_tokens authOk2 supply2 pool2 s = .ok (s1, eff) → s1 = s ∧ eff = []) := by
  constructor
  · unfold mint_lp_tokens
    rw [if_neg (by simp [hc]), if_neg (by simp [ha]), if_neg (by omega), if_pos hcond]
  · intro authOk2 supply2 pool2 s1 eff h
    obtain ⟨_, _, _, hcase⟩ := mint_lp_tokens_ok_inversion authOk2 supply2 pool2 s s1 eff h
    rcases hcase with ⟨_, hs1, heff⟩ | ⟨hca, hm0, _, _, _, _⟩
    · exact ⟨hs1, heff⟩
    · rcases hcond with h | h
      · exact absurd hca h
      · simp [h] at hm0

/-- C5 witness: a converted capital call (is_lp_minted = true,
allocated = capacity = 100): `mint_lp_tokens` is a no-op success. -/
theorem mint_lp_tokens_noop_witness :
    mint_lp_tokens true 50 70 ⟨⟨0, 10, 100, 100, 0, 7, 50, 3, true⟩, [(1, 100)], false⟩
      = .ok (⟨⟨0, 10, 100, 100, 0, 7, 50, 3, true⟩, [(1, 100)], false⟩, []) :=
  (mint_lp_tokens_noop ⟨⟨0, 10, 100, 100, 0, 7, 50, 3, true⟩, [(1, 100)], false⟩ true 50 70
    (by decide) (by decide) (by decide) (by decide)).1

/-- C7: with the caller's voucher of amount `a` present, `refund` fails
with `CapitalCallIsFullyFunded` (StillFundraising) whenever
`allocated ≥ capacity` — regardless of the clock — and with
`CapitalCallNotEnded` (WindowStillOpen) whenever `allocated < capacity`
but `now < end_time`; when `allocated < capacity` and `now ≥ end_time` it
transfers the voucher's full amount back, adds it to `redeemed`, and
destroys the voucher. -/
theorem refund_characterization (now d a : Nat) (s : ProgState)
    (hInv : Inv s) (hc : s.closed = false) (hf : findVoucher s.vouchers d = some a) :
    (s.cc.capacity ≤ s.cc.allocated → refund now d s = .error .CapitalCallIsFullyFunded) ∧
    (s.cc.allocated < s.cc.capacity → now < s.cc.end_time →
      refund now d s = .error .CapitalCallNotEnded) ∧
    (s.cc.allocated < s.cc.capacity → s.cc.end_time ≤ now →
      refund now d s = .ok ({ s with
          cc := { s.cc with redeemed := s.cc.redeemed + a }
          vouchers := removeVoucher s.vouchers d },
        [.transfer a])) := by
  refine ⟨fun h1 => ?_, fun h1 h2 => ?_, fun h1 h2 => ?_⟩ <;>
    unfold refund <;> rw [if_neg (by simp [hc])] <;> simp only [hf]
  · rw [if_pos (by omega)]
  · rw [if_neg (by omega), if_pos (by omega)]
  · rw [if_neg (by omega), if_neg (by omega)]
    have hmod : (s.cc.redeemed + a) % U64_MOD = s.cc.redeemed + a := by
      obtain ⟨hcap, halloc, hsum, _, _⟩ := hInv
      have hle := findVoucher_le_sum s.vouchers d a hf
      have := U64_MAX_lt_MOD
      exact Nat.mod_eq_of_lt (by omega)
    rw [hmod]

/-- C7 witness: the three branches at concrete states — refund on a full
round fails StillFundraising even before end_time; on an unfilled round
before end_time fails WindowStillOpen; after end_time it settles the
voucher. -/
theorem refund_characterization_witness :
    refund 5 1 ⟨⟨0, 10, 100, 100, 0, 0, 0, 0, false⟩, [(1, 100)], false⟩
      = .error .CapitalCallIsFullyFunded ∧
    refund 5 1 ⟨⟨0, 10, 100, 40, 0, 0, 0, 0, false⟩, [(1, 40)], false⟩
      = .error .CapitalCallNotEnded ∧
    refund 12 1 ⟨⟨0, 10, 100, 40, 0, 0, 0, 0, false⟩, [(1, 40)], false⟩
      = .ok (⟨⟨0, 10, 100, 40, 40, 0, 0, 0, false⟩, [], false⟩, [.transfer 40]) :=
  ⟨(refund_characterization 5 1 100 ⟨⟨0, 10, 100, 100, 0, 0, 0, 0, false⟩, [(1, 100)], false⟩
      (by decide) (by decide) (by decide)).1 (by decide),
   (refund_characterization 5 1 40 ⟨⟨0, 10, 100, 40, 0, 0, 0, 0, false⟩, [(1, 40)], false⟩
      (by decide) (by decide) (by decide)).2.1 (by decide) (by decide),
   (refund_characterization 12 1 40 ⟨⟨0, 10, 100, 40, 0, 0, 0, 0, false⟩, [(1, 40)], false⟩
      (by decide) (by decide) (by decide)).2.2 (by decide) (by decide)⟩

/-- C6 counterexample: a converted capital call whose frozen snapshot is
token_liquidity = credit_outstanding = u64::MAX, lp_supply = 1, and an
open voucher of amount 2^63 + 1.  `claim` succeeds and transfers
2^64 - 2 tokens, which is not the exact
floor(amount * (token_liquidity + credit_outstanding) / lp_supply) the
claim specifies (the 128-bit product wrapped). -/
theorem claim_overflow_counterexample :
    claim 7 ⟨⟨0, 10, 9223372036854775809, 9223372036854775809, 0,
              U64_MAX, 1, U64_MAX, true⟩, [(7, 9223372036854775809)], false⟩
      = .ok (⟨⟨0, 10, 9223372036854775809, 9223372036854775809, 9223372036854775809,
               U64_MAX, 1, U64_MAX, true⟩, [], false⟩, [.transfer (2 ^ 64 - 2)]) ∧
    9223372036854775809 * (U64_MAX + U64_MAX) / 1 ≠ 2 ^ 64 - 2 := by
  exact ⟨by decide, by decide⟩

/-- C6 (amended): for a converted capital call and an open voucher of
amount `a`, provided the 128-bit product of the frozen snapshot does not
overflow and the quotient fits u64, `claim` transfers exactly
floor(a * (token_liquidity + credit_outstanding) / lp_supply) tokens,
adds `a` (the original contribution) to `redeemed`, and destroys the
voucher; without conversion it fails with `LpTokenNotMinted`
(NotYetConverted) and changes nothing.  With the snapshot
token_liquidity 2,000,000, credit_outstanding 500,000,
lp_supply 4,000,000, a voucher of 100,000 claims 62,500. -/
theorem claim_exact (s : ProgState) (d a : Nat)
    (hInv : Inv s) (hc : s.closed = false) (hf : findVoucher s.vouchers d = some a)
    (hls : s.cc.lp_supply ≠ 0)
    (hfit : a * (s.cc.token_liquidity + s.cc.credit_outstanding) < U128_MOD)
    (hq : a * (s.cc.token_liquidity + s.cc.credit_outstanding) / s.cc.lp_supply ≤ U64_MAX) :
    (s.cc.is_lp_minted = false → claim d s = .error .LpTokenNotMinted) ∧
    (s.cc.is_lp_minted = true →
      claim d s = .ok
        ({ s with
            cc := { s.cc with redeemed := s.cc.redeemed + a }
            vouchers := removeVoucher s.vouchers d },
         [.transfer (a * (s.cc.token_liquidity + s.cc.credit_outstanding) / s.cc.lp_supply)])) ∧
    CapitalCall.to_lp_token
      { start_time := 0, end_time := 0, capacity := 1000000, allocated := 1000000, redeemed := 0,
        token_liquidity := 2000000, lp_supply := 4000000, credit_outstanding := 500000,
        is_lp_minted := true } 100000 = .ok 62500 := by
  have hlp : s.cc.to_lp_token a
      = .ok (a * (s.cc.token_liquidity + s.cc.credit_outstanding) / s.cc.lp_supply) := by
    unfold CapitalCall.to_lp_token
    rw [if_neg hls, Nat.mod_eq_of_lt hfit, if_pos hq]
  refine ⟨fun hm => ?_, fun hm => ?_, by decide⟩
  · unfold claim
    rw [if_neg (by simp [hc])]
    simp only [hf]
    rw [if_pos (by simp [hm])]
  · unfold claim
    rw [if_neg (by simp [hc])]
    simp only [hf, hlp]
    rw [if_neg (by simp [hm])]
    have hmod : (s.cc.redeemed + a) % U64_MOD = s.cc.redeemed + a := by
      obtain ⟨hcap, halloc, hsum, _, _⟩ := hInv
      have hle := findVoucher_le_sum s.vouchers d a hf
      have := U64_MAX_lt_MOD
      exact Nat.mod_eq_of_lt (by omega)
    rw [hmod]

/-- C6 witness: the worked example — a voucher of 100,000 under the frozen
snapshot (2,000,000 liquidity, 500,000 credit, 4,000,000 supply) claims
62,500 tokens and is destroyed. -/
theorem claim_exact_witness :
    claim 7 ⟨⟨0, 10, 100000, 100000, 0, 2000000, 4000000, 500000, true⟩,
             [(7, 100000)], false⟩
      = .ok (⟨⟨0, 10, 100000, 100000, 100000, 2000000, 4000000, 500000, true⟩, [], false⟩,
             [.transfer 62500]) :=
  (claim_exact ⟨⟨0, 10, 100000, 100000, 0, 2000000, 4000000, 500000, true⟩,
      [(7, 100000)], false⟩ 7 100000
    (by decide) (by decide) (by decide) (by decide) (by decide) (by decide)).2.1 (by decide)

theorem create_ok_inversion (now start duration capacity co : Nat) (s : ProgState)
    (h : create_capital_call now start duration capacity co = .ok s) :
    now ≤ start ∧ 0 < duration ∧ 0 < capacity ∧
    s = ⟨⟨start, (start + duration) % U64_MOD, capacity, 0, 0, 0, 0, co, false⟩, [], false⟩ := by
  unfold create_capital_call at h
  split_ifs at h with h1 h2 h3
  simp only [Except.ok.injEq] at h
  exact ⟨by omega, by omega, by omega, h.symm⟩

/-- C4: an accepted deposit accepts exactly
`min(amount, capacity - allocated)` and raises `allocated` by exactly that
amount; over every deposit-only sequence from a fresh capital call,
`allocated` never exceeds `capacity` and the open vouchers sum to
`allocated`; depositing 1,500,000 at capacity 1,000,000 with 400,000
allocated accepts exactly 600,000. -/
theorem deposit_clamp_and_allocated_invariant
    (now0 start duration capacity co : Nat) (s0 : ProgState) (ops : List (Nat × Op))
    (hcreate : create_capital_call now0 start duration capacity co = .ok s0)
    (hcap : capacity ≤ U64_MAX)
    (hdeps : onlyDeposits ops = true) :
    (∀ (now d a : Nat) (s : ProgState), Inv s → s.closed = false →
      findVoucher s.vouchers d = none → s.cc.start_time ≤ now → now < s.cc.end_time →
      s.cc.allocated < s.cc.capacity → 0 < a →
      deposit now d a s = .ok ({ s with
          cc := { s.cc with
            allocated := s.cc.allocated + min a (s.cc.capacity - s.cc.allocated) }
          vouchers := (d, min a (s.cc.capacity - s.cc.allocated)) :: s.vouchers },
        [.transfer (min a (s.cc.capacity - s.cc.allocated))])) ∧
    ((run s0 ops).cc.allocated ≤ (run s0 ops).cc.capacity ∧
     sumVouchers (run s0 ops).vouchers = (run s0 ops).cc.allocated) ∧
    deposit 5 2 1500000 ⟨⟨0, 10, 1000000, 400000, 0, 0, 0, 0, false⟩, [(1, 400000)], false⟩
      = .ok (⟨⟨0, 10, 1000000, 1000000, 0, 0, 0, 0, false⟩,
              [(2, 600000), (1, 400000)], false⟩,
             [.transfer 600000]) := by
  have hInv0 := inv_create now0 start duration capacity co s0 hcap hcreate
  refine ⟨?_, ?_, by decide⟩
  · intro now d a s hInv hc hf h1 h2 h3 h4
    unfold deposit
    rw [if_neg (by simp [hc]), if_neg (by simp [hf]), if_neg (by omega), if_neg (by omega),
      if_neg (by omega), if_neg (by omega)]
    have hmod : (s.cc.allocated + min a (s.cc.capacity - s.cc.allocated)) % U64_MOD
        = s.cc.allocated + min a (s.cc.capacity - s.cc.allocated) := by
      obtain ⟨hcapS, hallocS, _, _, _⟩ := hInv
      have := U64_MAX_lt_MOD
      have hmin := Nat.min_le_right a (s.cc.capacity - s.cc.allocated)
      exact Nat.mod_eq_of_lt (by omega)
    dsimp only
    rw [hmod]
  · have hInvN := inv_run s0 ops hInv0
    have hred : (run s0 ops).cc.redeemed = s0.cc.redeemed := redeemed_run_deposits s0 ops hdeps
    obtain ⟨_, _, _, hs0⟩ := create_ok_inversion now0 start duration capacity co s0 hcreate
    have hred0 : s0.cc.redeemed = 0 := by rw [hs0]
    obtain ⟨_, hallocN, hsumN, _, _⟩ := hInvN
    constructor
    · exact hallocN
    · omega

/-- C4 witness: two deposits of 30 and 80 into a fresh capital call of
capacity 100 leave allocated = 100 ≤ capacity with vouchers summing to
allocated. -/
theorem deposit_clamp_and_allocated_invariant_witness :
    ((run ⟨⟨5, 15, 100, 0, 0, 0, 0, 0, false⟩, [], false⟩
        [(5, Op.depositOp 1 30), (6, Op.depositOp 2 80)]).cc.allocated
      ≤ (run ⟨⟨5, 15, 100, 0, 0, 0, 0, 0, false⟩, [], false⟩
        [(5, Op.depositOp 1 30), (6, Op.depositOp 2 80)]).cc.capacity ∧
     sumVouchers (run ⟨⟨5, 15, 100, 0, 0, 0, 0, 0, false⟩, [], false⟩
        [(5, Op.depositOp 1 30), (6, Op.depositOp 2 80)]).vouchers
      = (run ⟨⟨5, 15, 100, 0, 0, 0, 0, 0, false⟩, [], false⟩
        [(5, Op.depositOp 1 30), (6, Op.depositOp 2 80)]).cc.allocated) :=
  (deposit_clamp_and_allocated_invariant 0 5 10 100 0
    ⟨⟨5, 15, 100, 0, 0, 0, 0, 0, false⟩, [], false⟩
    [(5, Op.depositOp 1 30), (6, Op.depositOp 2 80)]
    (by decide) (by decide) (by decide)).2.1

/-- C8: along any timed instruction sequence with a monotone clock, a
depositor settles (successful refund or claim) at most once: a successful
refund and a successful claim for the same voucher are mutually
exclusive, and either one destroys the voucher for good. -/
theorem settle_at_most_once
    (now0 start duration capacity co d : Nat) (s0 : ProgState) (ops : List (Nat × Op))
    (hcreate : create_capital_call now0 start duration capacity co = .ok s0)
    (hcap : capacity ≤ U64_MAX) (hmono : timesMono 0 ops = true) :
    settleCount d s0 ops ≤ 1 :=
  settle_le_one_aux d ops 0 s0
    (inv_create now0 start duration capacity co s0 hcap hcreate) hmono

/-- C8 witness: deposit, successful refund after the window, then a claim
attempt — depositor 1 settles exactly once. -/
theorem settle_at_most_once_witness :
    settleCount 1 ⟨⟨5, 15, 100, 0, 0, 0, 0, 0, false⟩, [], false⟩
      [(5, Op.depositOp 1 40), (20, Op.refundOp 1), (21, Op.claimOp 1)] ≤ 1 :=
  settle_at_most_once 0 5 10 100 0 1 ⟨⟨5, 15, 100, 0, 0, 0, 0, 0, false⟩, [], false⟩
    [(5, Op.depositOp 1 40), (20, Op.refundOp 1), (21, Op.claimOp 1)]
    (by decide) (by decide) (by decide)

/-- C9: in every state reachable from `create_capital_call`,
`redeemed ≤ allocated`; no instruction decreases `redeemed`; a successful
refund or claim increases it by exactly the settled voucher's amount, and
every other instruction leaves it unchanged. -/
theorem redeemed_monotone_le_allocated
    (now0 start duration capacity co : Nat) (s0 : ProgState) (ops : List (Nat × Op))
    (hcreate : create_capital_call now0 start duration capacity co = .ok s0)
    (hcap : capacity ≤ U64_MAX) :
    ((run s0 ops).cc.redeemed ≤ (run s0 ops).cc.allocated) ∧
    (∀ (t : Nat) (op : Op),
      (run s0 ops).cc.redeemed ≤ (applyStep (run s0 ops) (t, op)).cc.redeemed) ∧
    (∀ (t d a : Nat) (s1 : ProgState) (eff : List LedgerOp),
      findVoucher (run s0 ops).vouchers d = some a →
      refund t d (run s0 ops) = .ok (s1, eff) →
      s1.cc.redeemed = (run s0 ops).cc.redeemed + a) ∧
    (∀ (d a : Nat) (s1 : ProgState) (eff : List LedgerOp),
      findVoucher (run s0 ops).vouchers d = some a →
      claim d (run s0 ops) = .ok (s1, eff) →
      s1.cc.redeemed = (run s0 ops).cc.redeemed + a) ∧
    (∀ (t d a : Nat) (s1 : ProgState) (eff : List LedgerOp),
      deposit t d a (run s0 ops) = .ok (s1, eff) →
      s1.cc.redeemed = (run s0 ops).cc.redeemed) ∧
    (∀ (authOk : Bool) (supply pool : Nat) (s1 : ProgState) (eff : List LedgerOp),
      mint_lp_tokens authOk supply pool (run s0 ops) = .ok (s1, eff) →
      s1.cc.redeemed = (run s0 ops).cc.redeemed) ∧
    (∀ (t v l : Nat) (s1 : ProgState) (eff : List LedgerOp),
      close t v l (run s0 ops) = .ok (s1, eff) →
      s1.cc.redeemed = (run s0 ops).cc.redeemed) := by
  have hInvN : Inv (run s0 ops) :=
    inv_run s0 ops (inv_create now0 start duration capacity co s0 hcap hcreate)
  have hcapN := hInvN.1
  have hallocN := hInvN.2.1
  have hsumN := hInvN.2.2.1
  refine ⟨by omega, fun t op => redeemed_mono_applyStep _ t op hInvN, ?_, ?_, ?_, ?_, ?_⟩
  · intro t d a s1 eff hf hok
    obtain ⟨a', _, hf', _, _, hs1, _⟩ := refund_ok_inversion t d (run s0 ops) s1 eff hok
    rw [hf] at hf'
    obtain rfl : a = a' := by injection hf'
    subst hs1
    dsimp only
    have hle := findVoucher_le_sum _ _ _ hf
    have := U64_MAX_lt_MOD
    rw [Nat.mod_eq_of_lt (by omega)]
  · intro d a s1 eff hf hok
    obtain ⟨a', lp, _, hf', _, _, hs1, _⟩ := claim_ok_inversion d (run s0 ops) s1 eff hok
    rw [hf] at hf'
    obtain rfl : a = a' := by injection hf'
    subst hs1
    dsimp only
    have hle := findVoucher_le_sum _ _ _ hf
    have := U64_MAX_lt_MOD
    rw [Nat.mod_eq_of_lt (by omega)]
  · intro t d a s1 eff hok
    obtain ⟨_, _, _, _, _, _, hs1, _⟩ := deposit_ok_inversion t d a (run s0 ops) s1 eff hok
    subst hs1
    rfl
  · intro authOk supply pool s1 eff hok
    obtain ⟨_, _, _, hcase⟩ := mint_lp_tokens_ok_inversion authOk supply pool (run s0 ops) s1 eff hok
    rcases hcase with ⟨_, hs1, _⟩ | ⟨_, _, minted, _, hs1, _⟩ <;> subst hs1 <;> rfl
  · intro t v l s1 eff hok
    obtain ⟨_, _, hs1, _⟩ := close_ok_inversion t v l (run s0 ops) s1 eff hok
    subst hs1
    rfl

/-- C9 witness: after a deposit of 40 and its refund, redeemed = 40 equals
allocated and never exceeded it. -/
theorem redeemed_monotone_le_allocated_witness :
    (run ⟨⟨5, 15, 100, 0, 0, 0, 0, 0, false⟩, [], false⟩
      [(5, Op.depositOp 1 40), (20, Op.refundOp 1)]).cc.redeemed
      ≤ (run ⟨⟨5, 15, 100, 0, 0, 0, 0, 0, false⟩, [], false⟩
      [(5, Op.depositOp 1 40), (20, Op.refundOp 1)]).cc.allocated :=
  (redeemed_monotone_le_allocated 0 5 10 100 0
    ⟨⟨5, 15, 100, 0, 0, 0, 0, 0, false⟩, [], false⟩
    [(5, Op.depositOp 1 40), (20, Op.refundOp 1)] (by decide) (by decide)).1

/-- C10: a deposit by a depositor who already holds an open voucher for
this capital call always fails with the duplicate-`init` error, whatever
the amount, the clock, or the remaining capacity; consequently, along any
monotone-clock instruction sequence from creation, a depositor succeeds
in at most one deposit. -/
theorem deposit_duplicate_always_fails
    (now0 start duration capacity co d : Nat) (s0 : ProgState) (ops : List (Nat × Op))
    (hcreate : create_capital_call now0 start duration capacity co = .ok s0)
    (hcap : capacity ≤ U64_MAX) (hmono : timesMono 0 ops = true) :
    (∀ (now a a0 : Nat) (s : ProgState), s.closed = false →
      findVoucher s.vouchers d = some a0 →
      deposit now d a s = .error .AccountAlreadyInitialized) ∧
    depositCount d s0 ops ≤ 1 := by
  constructor
  · intro now a a0 s hc hf
    unfold deposit
    rw [if_neg (by simp [hc]), if_pos (by simp [hf])]
  · exact deposit_le_one_aux d ops 0 s0
      (inv_create now0 start duration capacity co s0 hcap hcreate) hmono

/-- C10 witness: depositor 1 deposits 40 and then attempts 10 more in the
same window with spare capacity — the count of successful deposits is at
most one. -/
theorem deposit_duplicate_always_fails_witness :
    deposit 8 1 10 ⟨⟨5, 15, 100, 40, 0, 0, 0, 0, false⟩, [(1, 40)], false⟩
      = .error .AccountAlreadyInitialized ∧
    depositCount 1 ⟨⟨5, 15, 100, 0, 0, 0, 0, 0, false⟩, [], false⟩
      [(5, Op.depositOp 1 40), (8, Op.depositOp 1 10)] ≤ 1 :=
  ⟨(deposit_duplicate_always_fails 0 5 10 100 0 1
      ⟨⟨5, 15, 100, 0, 0, 0, 0, 0, false⟩, [], false⟩
      [(5, Op.depositOp 1 40), (8, Op.depositOp 1 10)]
      (by decide) (by decide) (by decide)).1 8 10 40
      ⟨⟨5, 15, 100, 40, 0, 0, 0, 0, false⟩, [(1, 40)], false⟩ (by decide) (by decide),
   (deposit_duplicate_always_fails 0 5 10 100 0 1
      ⟨⟨5, 15, 100, 0, 0, 0, 0, 0, false⟩, [], false⟩
      [(5, Op.depositOp 1 40), (8, Op.depositOp 1 10)]
      (by decide) (by decide) (by decide)).2⟩

end CapCall
